import Mathlib

/-!
Shallow embedding of the `submodule` command family of the asoo-cli
repository (src/submodule/operations.py, src/submodule/config.py,
src/submodule/commands.py).

Modelling conventions:
* A repository descriptor is a Python dict with optional keys; `dict.get`
  returning `None` is modelled with `Option`.
* The filesystem is a state `St`: the set of existing directories, the set
  of directories carrying a `.git` metadata subdirectory, and an append-only
  log of observable events (git subprocess invocations and directory-tree
  removals).
* A Python exception escaping a function is an `Except.error` carrying the
  exception kind and the state at the raise point; `try/except` blocks are
  modelled by matching on the error and recovering.
* The external git binary is an oracle `GitOracle`: which argv/cwd pairs
  fail (a failing call raises `RuntimeError` in `_run_git_command`), what
  `rev-parse HEAD` prints per working directory, and the interactive
  confirmation answer read by `input()`.
* `os.path.join` of a base and a relative path is string concatenation with
  a separator (the base paths used by the commands are absolute and the
  descriptor paths relative, so `os.path.abspath` is the identity here);
  joining `None` raises `TypeError`, exactly as in Python.
-/

namespace Asoo

/-- One manifest entry, as the Python dict with keys
`url`, `path`, `branch`, `commit`, `depth`; a missing key is `none`. -/
structure RepoData where
  url : Option String := none
  path : Option String := none
  branch : Option String := none
  commit : Option String := none
  depth : Option Nat := none
deriving DecidableEq, Repr

/-- Python exception kinds that the modelled code can raise. -/
inductive PyErr where
  | gitFailed (argv : List String) (cwd : String)
  | typeError
  | nameError
  | attributeError
  | fileNotFound (p : String)
  | exit (code : Nat)
deriving DecidableEq, Repr

/-- Observable side effects: a git subprocess call, or a recursive
directory-tree removal (`shutil.rmtree`). -/
inductive Event where
  | git (argv : List String) (cwd : String)
  | rmtree (p : String)
deriving DecidableEq, Repr

/-- Filesystem and event-log state threaded through the operations. -/
structure St where
  dirs : List String
  gitDirs : List String
  events : List Event
deriving DecidableEq, Repr

/-- The external git executable and console, as an oracle: which commands
fail, what `rev-parse HEAD` prints in a given working directory, and the
answer typed at the `input()` confirmation prompt. -/
structure GitOracle where
  fails : List String → String → Bool
  head : String → String
  confirm : Bool

/-- Python `str(x)` for an optional string (`str(None) = "None"`). -/
def pyStr : Option String → String
  | none => "None"
  | some s => s

/-- Python truthiness of an optional string (`None` and `""` are falsy). -/
def truthyS : Option String → Bool
  | none => false
  | some s => !(s == (""))

/-- Python truthiness of an optional integer (`None` and `0` are falsy). -/
def truthyN : Option Nat → Bool
  | none => false
  | some n => n != 0

/-- Test a predicate on the content of an optional value (`none` passes). -/
def optAll {α : Type} (f : α → Bool) : Option α → Bool
  | none => true
  | some a => f a

/-- String prefix test on the character lists (kernel-evaluable
replacement for `String.startsWith`). -/
def strStartsWith (s pre : String) : Bool := pre.data.isPrefixOf s.data

/-- `os.path.join` for an absolute base and a second component. -/
def pathJoin (a b : String) : String :=
  if strStartsWith b ("/") then b else a ++ ("/") ++ b

/-- Split a character list at a separator (semantics of Python
`str.split(sep)`). -/
def splitCharsAux (sep : Char) : List Char → List (List Char)
  | [] => [[]]
  | c :: rest =>
    match splitCharsAux sep rest with
    | [] => [[]]
    | g :: gs => if c = sep then [] :: g :: gs else (c :: g) :: gs

/-- `os.path.dirname`. -/
def dirname (p : String) : String :=
  String.intercalate ("/")
    (((splitCharsAux '/' p.data).map (fun l => String.mk l)).dropLast)

/-- `os.path.exists` on the modelled filesystem. -/
def St.hasDir (st : St) (p : String) : Bool := st.dirs.contains p

/-- Whether `p/.git` exists on the modelled filesystem. -/
def St.hasGitDir (st : St) (p : String) : Bool := st.gitDirs.contains p

/-- `SubmoduleOperations._exist_repo`: `os.path.exists(path)`. -/
def exist_repo (st : St) (p : String) : Bool := st.hasDir p

/-- `SubmoduleOperations._has_git`: the directory exists and contains
`.git`. -/
def has_git (st : St) (p : String) : Bool := exist_repo st p && st.hasGitDir p

/-- An untracked working copy: directory present, no `.git` metadata. -/
def untracked (st : St) (p : String) : Bool := exist_repo st p && !(has_git st p)

/-- `os.makedirs`. -/
def makedirs (p : String) (st : St) : St := { st with dirs := st.dirs ++ [p] }

/-- `shutil.rmtree` on a whole working copy: removes the directory and
everything below it. -/
def removeTree (p : String) (st : St) : St :=
  { st with
    dirs := st.dirs.filter (fun d => !(d == p || strStartsWith d (p ++ ("/")))),
    gitDirs := st.gitDirs.filter (fun d => !(d == p || strStartsWith d (p ++ ("/")))) }

/-- `SubmoduleOperations._run_git_command`: records the subprocess call,
raises `RuntimeError` when the oracle says the command fails, otherwise
returns the command's stdout and applies the command's filesystem effect
(`init` creates `.git` in the cwd, `clone` creates the target working copy,
`rev-parse` prints the head hash). -/
def run_git_command (o : GitOracle) (argv : List String) (cwd : String) (st : St) :
    Except (PyErr × St) (String × St) :=
  let st1 : St := { st with events := st.events ++ [.git argv cwd] }
  if o.fails argv cwd then .error (.gitFailed argv cwd, st1)
  else
    match argv with
    | "init" :: _ => .ok ("", { st1 with gitDirs := st1.gitDirs ++ [cwd] })
    | "clone" :: rest =>
        match rest.getLast? with
        | some target =>
            .ok ("", { st1 with dirs := st1.dirs ++ [target],
                                gitDirs := st1.gitDirs ++ [target] })
        | none => .ok ("", st1)
    | "rev-parse" :: _ => .ok (o.head cwd, st1)
    | _ => .ok ("", st1)

/-- The fetch argv built by `_fetch_and_reset`. -/
def fetchCmdOf (fetchRes : String) (jobs : Nat) : List String :=
  ["fetch", "--depth", "1", "origin", fetchRes]
    ++ (if jobs > 1 then ["--jobs", toString jobs] else [])

/-- `SubmoduleOperations._fetch_and_reset`: `fetch --depth 1 origin <f>`
(plus `--jobs` when `jobs > 1`), `reset --quiet --hard <r>`, `clean -ffd`. -/
def fetch_and_reset (o : GitOracle) (fetchRes resetRes : String) (p : String)
    (jobs : Nat) (st : St) : Except (PyErr × St) (Unit × St) :=
  match run_git_command o (fetchCmdOf fetchRes jobs) p st with
  | .error e => .error e
  | .ok (_, st) =>
  match run_git_command o ["reset", "--quiet", "--hard", resetRes] p st with
  | .error e => .error e
  | .ok (_, st) =>
  match run_git_command o ["clean", "-ffd"] p st with
  | .error e => .error e
  | .ok (_, st) => .ok ((), st)

/-- `SubmoduleOperations._recreate_git`: when the directory exists without
`.git`, reinitialize it in place (`init`, `remote add origin`,
`checkout -b`, then fetch+reset to the pinned commit); otherwise do
nothing.  The string arguments are already `str()`-converted as in
`_run_git_command`. -/
def recreate_git (o : GitOracle) (url branch commit : String) (p : String) (st : St) :
    Except (PyErr × St) (Unit × St) :=
  if exist_repo st p && !(has_git st p) then
    match run_git_command o ["init"] p st with
    | .error e => .error e
    | .ok (_, st) =>
    match run_git_command o ["remote", "add", "origin", url] p st with
    | .error e => .error e
    | .ok (_, st) =>
    match run_git_command o ["checkout", "-b", branch] p st with
    | .error e => .error e
    | .ok (_, st) => fetch_and_reset o commit commit p 1 st
  else .ok ((), st)

/-- `SubmoduleOperations._current_commit_hash`: returns `none` when the
working copy is missing or has no `.git`, and also when `rev-parse` fails
(the exception is caught inside the method). -/
def current_commit_hash (o : GitOracle) (p : String) (st : St) : Option String × St :=
  if !(exist_repo st p) || !(has_git st p) then (none, st)
  else
    match run_git_command o ["rev-parse", "HEAD"] p st with
    | .error (_, st) => (none, st)
    | .ok (s, st) => (some s, st)

/-- `SubmoduleOperations._remove_git`: `shutil.rmtree(path/.git)`; raises
`FileNotFoundError` when there is no `.git` to remove. -/
def remove_git (p : String) (st : St) : Except (PyErr × St) (Unit × St) :=
  if st.hasGitDir p then
    .ok ((), { st with gitDirs := st.gitDirs.filter (fun d => !(d == p)) })
  else .error (.fileNotFound (p ++ ("/.git")), st)

/-- The argv built by `SubmoduleOperations._clone`. -/
def cloneCmd (rd : RepoData) (jobs : Nat) (absPath : String) : List String :=
  ["clone"]
  ++ (if truthyN rd.depth then ["--depth", toString (rd.depth.getD 0)] else [])
  ++ (if truthyS rd.branch then ["--branch", pyStr rd.branch] else [])
  ++ (if jobs > 1 then ["--jobs", toString jobs] else [])
  ++ ["--filter=blob:none", "--single-branch", pyStr rd.url, absPath]

/-- Shared tail of the `try` blocks of `clone` and `update`: read the
resulting head hash with `_current_commit_hash`, optionally strip `.git`
(`git_clean`), and return the hash. -/
def cloneFinish (o : GitOracle) (absPath : String) (gitClean : Bool) (st : St) :
    Except (PyErr × St) (Option String × St) :=
  match current_commit_hash o absPath st with
  | (c, st) =>
    if gitClean then
      match remove_git absPath st with
      | .error e => .error e
      | .ok (_, st) => .ok (c, st)
    else .ok (c, st)

/-- First step of `clone`'s `try` block: issue the `git clone` subprocess
when the working copy directory is missing. -/
def cloneStep1 (o : GitOracle) (rd : RepoData) (absPath parentDir : String)
    (jobs : Nat) (st : St) : Except (PyErr × St) (Unit × St) :=
  if !(exist_repo st absPath) then
    match run_git_command o (cloneCmd rd jobs absPath) parentDir st with
    | .error e => .error e
    | .ok (_, st) => .ok ((), st)
  else .ok ((), st)

/-- Second step of `clone`'s `try` block: pin to the declared commit when
one is set. -/
def cloneStep2 (o : GitOracle) (rd : RepoData) (absPath : String) (jobs : Nat)
    (st : St) : Except (PyErr × St) (Unit × St) :=
  if truthyS rd.commit then
    fetch_and_reset o (pyStr rd.commit) (pyStr rd.commit) absPath jobs st
  else .ok ((), st)

/-- The body of the `try` block of `SubmoduleOperations.clone`. -/
def cloneBody (o : GitOracle) (rd : RepoData) (absPath parentDir : String)
    (gitClean : Bool) (jobs : Nat) (st : St) :
    Except (PyErr × St) (Option String × St) :=
  match cloneStep1 o rd absPath parentDir jobs st with
  | .error e => .error e
  | .ok (_, st) =>
  match cloneStep2 o rd absPath jobs st with
  | .error e => .error e
  | .ok (_, st) => cloneFinish o absPath gitClean st

/-- `SubmoduleOperations.clone`.  Note: the `url`/`path` guard returns
`None` before anything runs; `_recreate_git` and the parent-directory
creation run before the `try` block, so only failures inside `cloneBody`
are caught and turned into a `None` result. -/
def clone (o : GitOracle) (rd : RepoData) (base : String) (gitClean : Bool)
    (jobs : Nat) (st : St) : Except (PyErr × St) (Option String × St) :=
  if !(truthyS rd.url) || !(truthyS rd.path) then .ok (none, st)
  else
    let absPath := pathJoin base (pyStr rd.path)
    let parentDir := dirname absPath
    match recreate_git o (pyStr rd.url) (pyStr rd.branch) (pyStr rd.commit) absPath st with
    | .error e => .error e
    | .ok (_, st) =>
      let st := if !(st.hasDir parentDir) then makedirs parentDir st else st
      match cloneBody o rd absPath parentDir gitClean jobs st with
      | .error (_, st) => .ok (none, st)
      | .ok (c, st) => .ok (c, st)

/-- The fetch+reset step of `update`'s `try` block: `origin/<branch>`
when `remote` is set, otherwise the pinned commit. -/
def updateFetch (o : GitOracle) (rd : RepoData) (branchS : String) (remote : Bool)
    (absPath : String) (jobs : Nat) (st : St) : Except (PyErr × St) (Unit × St) :=
  if remote then fetch_and_reset o branchS (("origin/") ++ branchS) absPath jobs st
  else fetch_and_reset o (pyStr rd.commit) (pyStr rd.commit) absPath jobs st

/-- The body of the `try` block of `SubmoduleOperations.update`. -/
def updateBody (o : GitOracle) (rd : RepoData) (branchS : String)
    (remote gitClean : Bool) (absPath : String) (jobs : Nat) (st : St) :
    Except (PyErr × St) (Option String × St) :=
  match updateFetch o rd branchS remote absPath jobs st with
  | .error e => .error e
  | .ok (_, st) => cloneFinish o absPath gitClean st

/-- `SubmoduleOperations.update`.  A descriptor without `path` raises
`TypeError` at `os.path.join(path, None)`.  The confirmation prompt runs
when the working copy has `.git` and local changes are not ignored;
declining returns `None`.  `_recreate_git` runs before the `try` block;
when the working copy is missing the call delegates to `clone`. -/
def update (o : GitOracle) (rd : RepoData) (base : String)
    (remote gitClean ignoreLocal : Bool) (jobs : Nat) (st : St) :
    Except (PyErr × St) (Option String × St) :=
  match rd.path with
  | none => .error (.typeError, st)
  | some rpath =>
    let absPath := pathJoin base rpath
    let branchS := pyStr rd.branch
    if has_git st absPath && !ignoreLocal && !o.confirm then .ok (none, st)
    else
      match recreate_git o (pyStr rd.url) branchS (pyStr rd.commit) absPath st with
      | .error e => .error e
      | .ok (_, st) =>
        if !(exist_repo st absPath) then clone o rd base gitClean jobs st
        else
          match updateBody o rd branchS remote gitClean absPath jobs st with
          | .error (_, st) => .ok (none, st)
          | .ok (c, st) => .ok (c, st)

/-- `SubmoduleOperations.rm`: joining a missing `path` raises `TypeError`;
otherwise a no-op when the working copy does not exist, else the directory
tree is removed recursively. -/
def rm (rd : RepoData) (base : String) (st : St) :
    Except (PyErr × St) (Option String × St) :=
  match rd.path with
  | none => .error (.typeError, st)
  | some rpath =>
    let p := pathJoin base rpath
    if !(st.hasDir p) then .ok (none, st)
    else
      let st2 := removeTree p st
      .ok (none, { st2 with events := st2.events ++ [.rmtree p] })

/-! ## Manifest store (src/submodule/config.py) -/

/-- The `repositories` key of the parsed manifest: absent, explicit null,
or a sequence of descriptors. -/
inductive ReposField where
  | absent
  | null
  | list (rs : List RepoData)
deriving DecidableEq, Repr

/-- A parsed manifest document: the `repositories` field and whether the
mapping carries any other key (which decides Python dict truthiness). -/
structure ConfigData where
  repos : ReposField
  hasOtherKeys : Bool
deriving DecidableEq, Repr

/-- Python truthiness of the parsed document (an empty dict is falsy). -/
def ConfigData.truthy (c : ConfigData) : Bool :=
  (match c.repos with | .absent => false | _ => true) || c.hasOtherKeys

/-- `'repositories' in self.config_data`. -/
def ConfigData.hasKey (c : ConfigData) : Bool :=
  match c.repos with | .absent => false | _ => true

/-- `self.config_data.get('repositories') or []`. -/
def ConfigData.reposList (c : ConfigData) : List RepoData :=
  match c.repos with | .list rs => rs | _ => []

/-- `SubmoduleConfig.get_repositories()` without a path filter. -/
def get_repositories (cfg : Option ConfigData) : List RepoData :=
  match cfg with
  | some c => if c.truthy && c.hasKey then c.reposList else []
  | none => []

/-- `SubmoduleConfig.get_repositories(path=...)`: the first matching
descriptor.  Python returns `None` on a miss and `[]` when the guard
fails; both are falsy and both lack `.get`, so they are identified as
`none` here. -/
def get_repository (cfg : Option ConfigData) (p : Option String) : Option RepoData :=
  match cfg with
  | some c =>
    if c.truthy && c.hasKey then (c.reposList.filter (fun r => r.path == p)).head?
    else none
  | none => none

/-- Replace the `commit` field of the first descriptor whose `path` equals
the given one. -/
def setCommitFirst : List RepoData → Option String → Option String → List RepoData
  | [], _, _ => []
  | r :: rest, rpath, newc =>
    if r.path == rpath then { r with commit := newc } :: rest
    else r :: setCommitFirst rest rpath newc

/-- `SubmoduleConfig.update_repository_commit`.  When no descriptor
matches, the warning message interpolates the undefined name `repo_name`,
so the call raises `NameError` instead of returning `False`; iterating a
null `repositories` value raises `TypeError`. -/
def update_repository_commit (cfg : Option ConfigData) (rpath : Option String)
    (newc : Option String) : Except PyErr (Bool × Option ConfigData) :=
  match cfg with
  | none => .ok (false, none)
  | some c =>
    if !(c.truthy && c.hasKey) then .ok (false, some c)
    else
      match c.repos with
      | .absent => .ok (false, some c)
      | .null => .error .typeError
      | .list rs =>
        if rs.any (fun r => r.path == rpath) then
          .ok (true, some { c with repos := .list (setCommitFirst rs rpath newc) })
        else .error .nameError

/-- `SubmoduleConfig.add_repository`: refuses (returns leaving the data
unchanged) when no data is loaded or the `repositories` key is absent;
otherwise appends the new descriptor (a null `repositories` value is first
replaced by an empty list). -/
def add_repository (cfg : Option ConfigData) (path url : String)
    (branch commit : Option String) (depth : Option Nat) : Option ConfigData :=
  match cfg with
  | none => none
  | some c =>
    if !(c.truthy && c.hasKey) then some c
    else some { c with repos := .list (c.reposList ++
      [{ url := some url, path := some path, branch := branch,
         commit := commit, depth := depth }]) }

/-- `SubmoduleConfig.remove_repository`: drops every descriptor with the
given path; no-op on missing data or key. -/
def remove_repository (cfg : Option ConfigData) (path : String) : Option ConfigData :=
  match cfg with
  | none => none
  | some c =>
    if !(c.truthy && c.hasKey) then some c
    else some { c with repos := .list (c.reposList.filter (fun r => !(r.path == some path))) }

/-- The load check in `SubmoduleCommands.load_config`
(`if not self.config.load_config(): ... sys.exit(1)`): a parse failure
returns `None` and a parsed-but-falsy document (empty mapping or empty
file) is also rejected; both exit with code 1. -/
def commands_load_config (parsed : Option ConfigData) : Except PyErr ConfigData :=
  match parsed with
  | none => .error (.exit 1)
  | some c => if c.truthy then .ok c else .error (.exit 1)

/-! ## Driver (src/submodule/commands.py) -/

/-- Driver state: the in-memory manifest, the filesystem, and the last
content written to the manifest file and to the hidden shadow file
(`none` when the file was never written during the run). -/
structure Drv where
  cfg : Option ConfigData
  st : St
  savedMain : Option ConfigData
  savedShadow : Option ConfigData
deriving DecidableEq, Repr

/-- `SubmoduleConfig.save_config()` on the main manifest path: writes the
in-memory data; with no data loaded it reports failure and writes
nothing. -/
def save_config_main (d : Drv) : Drv :=
  match d.cfg with
  | none => d
  | some c => { d with savedMain := some c }

/-- `self.config.save_config(self.hidden_config.config_path)`: writes the
current manifest content to the shadow file. -/
def save_config_shadow (d : Drv) : Drv :=
  match d.cfg with
  | none => d
  | some c => { d with savedShadow := some c }

/-- The per-entry loop of `SubmoduleCommands.remove_deleted_submodules`:
remove the working copy of every shadow entry whose path is not among the
current manifest paths. -/
def removeDeletedLoop (base : String) (current : List (Option String)) :
    List RepoData → St → Except (PyErr × St) St
  | [], st => .ok st
  | r :: rest, st =>
    if current.contains r.path then removeDeletedLoop base current rest st
    else
      match rm r base st with
      | .error e => .error e
      | .ok (_, st) => removeDeletedLoop base current rest st

/-- `SubmoduleCommands.remove_deleted_submodules`. -/
def remove_deleted_submodules (base : String) (cfg hidden : Option ConfigData)
    (st : St) : Except (PyErr × St) St :=
  match cfg with
  | none => .ok st
  | some _ =>
      removeDeletedLoop base ((get_repositories cfg).map (·.path))
        (get_repositories hidden) st

/-- One iteration of the `command_update` loop: run `update`, skip the
persistence step on a falsy result, otherwise write the new commit into
the manifest and save it. -/
def updateStep (o : GitOracle) (base : String) (remote gitClean ignoreLocal : Bool)
    (rd : RepoData) (d : Drv) : Except (PyErr × Drv) Drv :=
  match update o rd base remote gitClean ignoreLocal 1 d.st with
  | .error (e, st) => .error (e, { d with st := st })
  | .ok (c, st) =>
    let d := { d with st := st }
    if !(truthyS c) then .ok d
    else
      match update_repository_commit d.cfg rd.path c with
      | .error e => .error (e, d)
      | .ok (_, cfg2) => .ok (save_config_main { d with cfg := cfg2 })

/-- The `for repo_data in repos` loop of `command_update` over all
descriptors.  Python iterates the live `repositories` list whose dicts are
mutated in place, so the loop is indexed and re-reads the current manifest
at each step (the length never changes: only `commit` fields are
rewritten). -/
def updateLoopIdx (o : GitOracle) (base : String)
    (remote gitClean ignoreLocal : Bool) : List Nat → Drv → Except (PyErr × Drv) Drv
  | [], d => .ok d
  | i :: rest, d =>
    match (get_repositories d.cfg)[i]? with
    | none => .ok d
    | some rd =>
      match updateStep o base remote gitClean ignoreLocal rd d with
      | .error e => .error e
      | .ok d2 => updateLoopIdx o base remote gitClean ignoreLocal rest d2

/-- `SubmoduleCommands.command_update` (after the configuration is
loaded): with a truthy `-p` argument, a lookup miss exits with code 1 and
otherwise the single descriptor is processed; without it every descriptor
is processed in manifest order. -/
def command_update (o : GitOracle) (base : String) (argPath : Option String)
    (remote gitClean ignoreLocal : Bool) (d : Drv) : Except (PyErr × Drv) Drv :=
  if truthyS argPath then
    match get_repository d.cfg argPath with
    | none => .error (.exit 1, d)
    | some rd => updateStep o base remote gitClean ignoreLocal rd d
  else
    updateLoopIdx o base remote gitClean ignoreLocal
      (List.range (get_repositories d.cfg).length) d

/-- `SubmoduleCommands.command_add` (after the configuration is loaded):
exit 1 when the path is already declared; append via `add_repository`;
re-read the descriptor (when `add_repository` refused, the re-read yields
a valueless result and the following `repo_data.get` raises
`AttributeError`); clone; write the resulting commit and save. -/
def command_add (o : GitOracle) (base : String) (aPath aUrl : String)
    (aBranch aCommit : Option String) (aDepth : Option Nat) (gitClean : Bool)
    (d : Drv) : Except (PyErr × Drv) Drv :=
  match get_repository d.cfg (some aPath) with
  | some _ => .error (.exit 1, d)
  | none =>
    let d := { d with cfg := add_repository d.cfg aPath aUrl aBranch aCommit aDepth }
    match get_repository d.cfg (some aPath) with
    | none => .error (.attributeError, d)
    | some rd =>
      match clone o rd base gitClean 1 d.st with
      | .error (e, st) => .error (e, { d with st := st })
      | .ok (c, st) =>
        let d := { d with st := st }
        match update_repository_commit d.cfg (some aPath) c with
        | .error e => .error (e, d)
        | .ok (_, cfg2) => .ok (save_config_main { d with cfg := cfg2 })

/-- `SubmoduleCommands.command_rm` (after the configuration is loaded):
a lookup miss exits with code 1 before anything is written; otherwise the
working copy is removed, the descriptor dropped and the manifest saved. -/
def command_rm (base : String) (aPath : String) (d : Drv) :
    Except (PyErr × Drv) Drv :=
  match get_repository d.cfg (some aPath) with
  | none => .error (.exit 1, d)
  | some rd =>
    match rm rd base d.st with
    | .error (e, st) => .error (e, { d with st := st })
    | .ok (_, st) =>
      .ok (save_config_main { d with st := st, cfg := remove_repository d.cfg aPath })

/-- `SubmoduleCommands.handle_submodule_operation` for the `rm`
subcommand: prune working copies of shadow-only entries, run the
subcommand, then back up the manifest into the shadow file; `sys.exit`
raised inside the subcommand skips the shadow backup. -/
def handle_rm_operation (base : String) (aPath : String)
    (cfg hidden : Option ConfigData) (st : St) : Except (PyErr × Drv) Drv :=
  let d0 : Drv := ⟨cfg, st, none, none⟩
  match remove_deleted_submodules base cfg hidden st with
  | .error (e, st2) => .error (e, { d0 with st := st2 })
  | .ok st2 =>
    match command_rm base aPath { d0 with st := st2 } with
    | .error e => .error e
    | .ok d => .ok (save_config_shadow d)

/-! ## Environment-variable interpolation (SubmoduleConfig) -/

/-- A regex word character, as matched by the `\w` class used in the
placeholder pattern. -/
def isWordChar (c : Char) : Bool := c.isAlphanum || c == '_'

/-- Fuel-driven scanner implementing
`re.sub` of the pattern dollar-brace-name-brace
(`_resolve_env_variables`): a placeholder whose variable resolves is
replaced by its value (the replacement is not rescanned), an unresolved
placeholder is kept literally, and anything else is copied.  The fuel is
the input length, which always suffices. -/
def resolveCharsF (env : String → Option String) : Nat → List Char → List Char
  | _, [] => []
  | 0, l => l
  | fuel + 1, c1 :: rest =>
    match rest with
    | [] => [c1]
    | c2 :: rest2 =>
      if c1 = '$' ∧ c2 = '{' then
        let name := rest2.takeWhile isWordChar
        let rest3 := rest2.dropWhile isWordChar
        if name ≠ [] ∧ rest3.head? = some '}' then
          match env (String.mk name) with
          | some v => v.data ++ resolveCharsF env fuel rest3.tail
          | none => c1 :: c2 :: (name ++ '}' :: resolveCharsF env fuel rest3.tail)
        else c1 :: c2 :: resolveCharsF env fuel rest2
      else c1 :: resolveCharsF env fuel (c2 :: rest2)

/-- Environment-variable interpolation on one string value. -/
def resolveStr (env : String → Option String) (s : String) : String :=
  String.mk (resolveCharsF env s.data.length s.data)

/-- Whether a character sequence contains a well-formed placeholder. -/
def hasPH : List Char → Bool
  | [] => false
  | [_] => false
  | c1 :: c2 :: rest =>
    if c1 = '$' ∧ c2 = '{' then
      if rest.takeWhile isWordChar ≠ [] ∧ (rest.dropWhile isWordChar).head? = some '}' then
        true
      else hasPH rest
    else hasPH (c2 :: rest)

/-- Whether a string value contains a placeholder. -/
def strHasPH (s : String) : Bool := hasPH s.data

/-- No string field of the descriptor contains a placeholder. -/
def RepoData.noPH (r : RepoData) : Bool :=
  optAll (fun s => !strHasPH s) r.url && optAll (fun s => !strHasPH s) r.path
    && optAll (fun s => !strHasPH s) r.branch && optAll (fun s => !strHasPH s) r.commit

/-- `_resolve_env_variables` applied to one descriptor (string values are
interpolated, the integer `depth` is untouched). -/
def resolveRepo (env : String → Option String) (r : RepoData) : RepoData :=
  { url := r.url.map (resolveStr env), path := r.path.map (resolveStr env),
    branch := r.branch.map (resolveStr env), commit := r.commit.map (resolveStr env),
    depth := r.depth }

/-- `_resolve_env_variables` applied to the parsed manifest. -/
def resolveCfg (env : String → Option String) (c : ConfigData) : ConfigData :=
  { c with repos := match c.repos with
      | .list rs => .list (rs.map (resolveRepo env))
      | x => x }

/-- `save_config` followed by `load_config` on the written file:
`yaml.safe_dump` with `sort_keys=False` followed by `yaml.safe_load` is
the identity on the mapping/sequence/scalar data stored here, so the
round trip through the file reduces to re-running environment
interpolation on the saved in-memory data. -/
def save_then_load (env : String → Option String) (c : ConfigData) : ConfigData :=
  resolveCfg env c

/-! ## Helper projections and concrete fixtures -/

/-- Whether a modelled call returned normally. -/
def isOkE {ε α : Type} : Except ε α → Bool
  | .ok _ => true
  | .error _ => false

/-- The exception, if any, escaping a driver-level call. -/
def errOfD : Except (PyErr × Drv) Drv → Option PyErr
  | .error (e, _) => some e
  | .ok _ => none

/-- The driver state after a driver-level call, normal or exceptional. -/
def drvOf : Except (PyErr × Drv) Drv → Drv
  | .ok d => d
  | .error (_, d) => d

/-- The filesystem state after a reconciliation pass, normal or
exceptional. -/
def stOfD : Except (PyErr × St) St → St
  | .ok s => s
  | .error (_, s) => s

/-- A git oracle on which every subprocess call fails. -/
def oAllFail : GitOracle :=
  { fails := fun _ _ => true, head := fun _ => "", confirm := true }

/-- A git oracle on which every subprocess call succeeds and `rev-parse
HEAD` always prints the same hash. -/
def oAllOk : GitOracle :=
  { fails := fun _ _ => false, head := fun _ => "feedc0de", confirm := true }

/-- The empty filesystem. -/
def st0 : St := ⟨[], [], []⟩

/-- Bridge between the boolean list membership used by the embedding and
propositional membership. -/
theorem contains_iff_mem {l : List String} {x : String} :
    l.contains x = true ↔ x ∈ l := List.elem_iff

deriving instance DecidableEq for Except

/-! ## C3 -/

/-- C3: `update_repository_commit` is claimed to return whether a match
was found without raising; in fact a lookup miss evaluates a warning
message that interpolates the undefined name `repo_name`, raising
`NameError` (config.py line 106), while a hit does mutate the matching
descriptor's `commit` in place and returns `True`. -/
theorem update_repository_commit_miss_raises :
    update_repository_commit
      (some ⟨.list [{ url := some ("u"), path := some ("a") }], false⟩)
      (some ("b")) (some ("c")) = .error .nameError
    ∧ update_repository_commit
      (some ⟨.list [{ url := some ("u"), path := some ("a") }], false⟩)
      (some ("a")) (some ("c"))
      = .ok (true,
          some ⟨.list [{ url := some ("u"), path := some ("a"), commit := some ("c") }], false⟩) := by
  constructor <;> rfl

/-! ## C8 -/

/-- C8 counterexample: a manifest file that parses to an empty mapping
(so it has no `repositories` key) makes the load check in
`SubmoduleCommands.load_config` exit with code 1 instead of yielding an
empty descriptor sequence: the parsed document is falsy. -/
theorem load_config_empty_doc_exits :
    commands_load_config (some ⟨.absent, false⟩) = .error (.exit 1) := by rfl

/-- C8 amended: when the parsed manifest document is non-empty (it has at
least one other key) and lacks the `repositories` key, loading succeeds,
the descriptor sequence is empty and nothing exits. -/
theorem load_config_missing_key_ok (c : ConfigData)
    (h1 : c.repos = .absent) (h2 : c.hasOtherKeys = true) :
    commands_load_config (some c) = .ok c ∧ get_repositories (some c) = [] := by
  obtain ⟨r, k⟩ := c
  cases h1
  cases h2
  exact ⟨rfl, rfl⟩

/-- Witness for `load_config_missing_key_ok` at a concrete document. -/
theorem load_config_missing_key_ok_witness :
    commands_load_config (some ⟨.absent, true⟩) = .ok ⟨.absent, true⟩
      ∧ get_repositories (some ⟨.absent, true⟩) = [] :=
  load_config_missing_key_ok ⟨.absent, true⟩ rfl rfl

/-! ## C9 -/

/-- After removing a tree, its root directory no longer exists. -/
theorem hasDir_removeTree_self (p : String) (st : St) :
    (removeTree p st).hasDir p = false := by
  simp only [removeTree, St.hasDir]
  rw [Bool.eq_false_iff]
  intro h
  have hm := contains_iff_mem.mp h
  have := (List.mem_filter.mp hm).2
  simp at this

/-- C9: the reconciler's `rm` on a descriptor (with a declared path) is a
no-op returning no result when the working copy directory does not exist,
and after any successful `rm` a re-run returns without error and changes
nothing, since the directory is then gone. -/
theorem rm_absent_noop_and_idempotent (rd : RepoData) (base p : String) (st : St)
    (hp : rd.path = some p) :
    (st.hasDir (pathJoin base p) = false → rm rd base st = .ok (none, st))
    ∧ (∀ st2 r, rm rd base st = .ok (r, st2) → rm rd base st2 = .ok (none, st2)) := by
  constructor
  · intro h
    simp [rm, hp, h]
  · intro st2 r h
    by_cases hd : st.hasDir (pathJoin base p) = true
    · simp only [rm, hp, hd, Bool.not_true, Bool.false_eq_true, if_false,
        Except.ok.injEq, Prod.mk.injEq] at h
      obtain ⟨-, h2⟩ := h
      have hgone : st2.hasDir (pathJoin base p) = false := by
        rw [← h2]
        simpa [St.hasDir] using hasDir_removeTree_self (pathJoin base p) st
      simp [rm, hp, hgone]
    · have hd0 : st.hasDir (pathJoin base p) = false := by
        simpa using hd
      simp only [rm, hp, hd0, Bool.not_false, if_true, Except.ok.injEq,
        Prod.mk.injEq] at h
      obtain ⟨-, h2⟩ := h
      subst h2
      simp [rm, hp, hd0]

/-- Witness for `rm_absent_noop_and_idempotent`: a concrete descriptor,
an absent working copy for the first part, and a present working copy for
the second part. -/
theorem rm_absent_noop_and_idempotent_witness :
    (rm { path := some ("x") } ("/b") st0 = .ok (none, st0))
    ∧ (rm { path := some ("x") } ("/b")
        (stOfD (.ok ⟨[("/b/x")], [], []⟩)) = .ok (none, ⟨[("/b/x")], [], []⟩)
        → rm { path := some ("x") } ("/b") ⟨[], [], [.rmtree ("/b/x")]⟩
            = .ok (none, ⟨[], [], [.rmtree ("/b/x")]⟩)) := by
  constructor
  · exact (rm_absent_noop_and_idempotent { path := some ("x") } ("/b") ("x") st0 rfl).1
      (by decide)
  · intro _
    exact (rm_absent_noop_and_idempotent { path := some ("x") } ("/b") ("x")
      ⟨[("/b/x")], [], []⟩ rfl).2 ⟨[], [], [.rmtree ("/b/x")]⟩ none (by decide)

/-! ## C2 -/

/-- C2 counterexample: a descriptor with a `url` but no `path` makes
`update` raise `TypeError` at `os.path.join(path, None)` — it does not
return "no result without raising". -/
theorem update_missing_path_raises :
    update oAllOk { url := some ("u") } ("/b") false false true 1 st0
      = .error (.typeError, st0) := by rfl

/-- C2 amended: a descriptor missing `url` or `path` makes `clone` return
no result without raising; `update` behaves that way for a missing `url`
only when the working copy is absent (it then delegates to `clone`'s
guard), while a missing `path` makes `update` raise `TypeError`, which
propagates out of the per-descriptor driver step and aborts the batch. -/
theorem clone_update_missing_fields (o : GitOracle) (rd : RepoData) (base : String)
    (remote gc ilc : Bool) (jobs : Nat) (st : St) (d : Drv) :
    ((rd.url = none ∨ rd.path = none) → clone o rd base gc jobs st = .ok (none, st))
    ∧ (rd.path = none → update o rd base remote gc ilc jobs st = .error (.typeError, st))
    ∧ (rd.path = none → updateStep o base remote gc ilc rd d = .error (.typeError, d))
    ∧ (rd.url = none → rd.path.isSome = true →
        st.hasDir (pathJoin base (pyStr rd.path)) = false →
        update o rd base remote gc ilc jobs st = .ok (none, st)) := by
  refine ⟨?_, ?_, ?_, ?_⟩
  · rintro (h | h) <;> simp [clone, h, truthyS]
  · intro h
    simp [update, h]
  · intro h
    simp [updateStep, update, h]
  · intro hu hp hdir
    obtain ⟨p, hp2⟩ := Option.isSome_iff_exists.mp hp
    rw [hp2] at hdir
    simp only [pyStr] at hdir
    simp [update, hp2, has_git, exist_repo, hdir, recreate_git, clone, truthyS, hu]

/-- Witness for `clone_update_missing_fields`, applying each part at a
concrete descriptor satisfying its hypotheses. -/
theorem clone_update_missing_fields_witness :
    (clone oAllOk { url := some ("u") } ("/b") false 1 st0 = .ok (none, st0))
    ∧ (update oAllOk { url := some ("u") } ("/b") true false true 1 st0
        = .error (.typeError, st0))
    ∧ (updateStep oAllOk ("/b") true false true { url := some ("u") }
        ⟨none, st0, none, none⟩ = .error (.typeError, ⟨none, st0, none, none⟩))
    ∧ (update oAllOk { path := some ("x") } ("/b") true false true 1 st0
        = .ok (none, st0)) :=
  ⟨(clone_update_missing_fields oAllOk { url := some ("u") } ("/b") true false true 1 st0
      ⟨none, st0, none, none⟩).1 (Or.inr rfl),
   (clone_update_missing_fields oAllOk { url := some ("u") } ("/b") true false true 1 st0
      ⟨none, st0, none, none⟩).2.1 rfl,
   (clone_update_missing_fields oAllOk { url := some ("u") } ("/b") true false true 1 st0
      ⟨none, st0, none, none⟩).2.2.1 rfl,
   (clone_update_missing_fields oAllOk { path := some ("x") } ("/b") true false true 1 st0
      ⟨none, st0, none, none⟩).2.2.2 rfl (by decide) (by decide)⟩

/-! ## C1 counterexample -/

/-- C1 counterexample: an adapter failure during `clone`'s
`_recreate_git` phase (working copy present without `.git`, `git init`
fails) is not caught at the descriptor level: `clone` raises to its
caller. -/
theorem clone_recreate_failure_raises :
    isOkE (clone oAllFail { url := some ("u"), path := some ("p") } ("/b") false 1
      ⟨[("/b/p")], [], []⟩) = false := by rfl

/-! ## C10 -/

/-- C10 counterexample: on a loaded manifest that lacks the
`repositories` key, `command_add` on an undeclared path appends nothing
(`add_repository` refuses), then crashes with `AttributeError` when the
re-read descriptor is a valueless result, and no manifest file is ever
written — the claimed append-and-save does not happen for every such
invocation. -/
theorem command_add_missing_key_crashes :
    command_add oAllOk ("/b") ("p") ("u") none none none false
      ⟨some ⟨.absent, true⟩, st0, none, none⟩
      = .error (.attributeError, ⟨some ⟨.absent, true⟩, st0, none, none⟩)
    ∧ (drvOf (command_add oAllOk ("/b") ("p") ("u") none none none false
        ⟨some ⟨.absent, true⟩, st0, none, none⟩)).savedMain = none := by
  exact ⟨rfl, rfl⟩

/-- No descriptor of `rs` matches the path, so the filtered lookup is
empty. -/
theorem get_repository_all_miss (c : ConfigData) (rs : List RepoData) (p : String)
    (hrs : c.repos = .list rs)
    (h : rs.all (fun r => !(r.path == some p)) = true) :
    get_repository (some c) (some p) = none := by
  have hf : rs.filter (fun r => r.path == some p) = [] := by
    rw [List.filter_eq_nil_iff]
    intro a ha
    have := (List.all_eq_true.mp h) a ha
    simpa using this
  simp [get_repository, ConfigData.truthy, ConfigData.hasKey, ConfigData.reposList, hrs, hf]

/-- `setCommitFirst` on a list whose only match is the appended last
element rewrites exactly that element's `commit`. -/
theorem setCommitFirst_append_last (rs : List RepoData) (nr : RepoData)
    (pp v : Option String)
    (h : rs.all (fun r => !(r.path == pp)) = true) (hn : (nr.path == pp) = true) :
    setCommitFirst (rs ++ [nr]) pp v = rs ++ [{ nr with commit := v }] := by
  induction rs with
  | nil => simp [setCommitFirst, hn]
  | cons a t ih =>
    simp only [List.all_cons, Bool.and_eq_true] at h
    have ha : (a.path == pp) = false := by simpa using h.1
    simp [setCommitFirst, ha, ih h.2]

/-- The descriptor dict built by `command_add`/`add_repository` from the
command-line arguments. -/
def mkRepo (url path : String) (branch commit : Option String) (depth : Option Nat) :
    RepoData :=
  { url := some url, path := some path, branch := branch, commit := commit,
    depth := depth }

/-- C10 amended: provided the loaded manifest carries the `repositories`
key, an `add` on an undeclared path appends the new descriptor and saves
the manifest even when the subsequent `clone` returns no commit: the
persisted descriptor's `commit` is overwritten with whatever `clone`
returned (null on failure) — the add is not rolled back. -/
theorem command_add_persists_clone_result (o : GitOracle) (base aPath aUrl : String)
    (aBranch aCommit : Option String) (aDepth : Option Nat) (gc : Bool)
    (cfg : ConfigData) (rs : List RepoData) (st st2 : St) (rOpt : Option String)
    (hrs : cfg.repos = .list rs)
    (hnew : rs.all (fun r => !(r.path == some aPath)) = true)
    (hclone : clone o (mkRepo aUrl aPath aBranch aCommit aDepth) base gc 1 st
      = .ok (rOpt, st2)) :
    command_add o base aPath aUrl aBranch aCommit aDepth gc ⟨some cfg, st, none, none⟩
      = .ok ⟨some ⟨.list (rs ++ [mkRepo aUrl aPath aBranch rOpt aDepth]), cfg.hasOtherKeys⟩,
          st2,
          some ⟨.list (rs ++ [mkRepo aUrl aPath aBranch rOpt aDepth]), cfg.hasOtherKeys⟩,
          none⟩ := by
  have h1 : get_repository (some cfg) (some aPath) = none :=
    get_repository_all_miss cfg rs aPath hrs hnew
  have hadd : add_repository (some cfg) aPath aUrl aBranch aCommit aDepth
      = some ⟨.list (rs ++ [mkRepo aUrl aPath aBranch aCommit aDepth]), cfg.hasOtherKeys⟩ := by
    simp [add_repository, ConfigData.truthy, ConfigData.hasKey, ConfigData.reposList,
      hrs, mkRepo]
  have hfind : get_repository
      (some ⟨.list (rs ++ [mkRepo aUrl aPath aBranch aCommit aDepth]), cfg.hasOtherKeys⟩)
      (some aPath)
      = some (mkRepo aUrl aPath aBranch aCommit aDepth) := by
    have hf : rs.filter (fun r => r.path == some aPath) = [] := by
      rw [List.filter_eq_nil_iff]
      intro a ha
      have := (List.all_eq_true.mp hnew) a ha
      simpa using this
    simp [get_repository, ConfigData.truthy, ConfigData.hasKey, ConfigData.reposList,
      List.filter_append, hf, mkRepo]
  have hupd : update_repository_commit
      (some ⟨.list (rs ++ [mkRepo aUrl aPath aBranch aCommit aDepth]), cfg.hasOtherKeys⟩)
      (some aPath) rOpt
      = .ok (true,
          some ⟨.list (rs ++ [mkRepo aUrl aPath aBranch rOpt aDepth]), cfg.hasOtherKeys⟩) := by
    have hany : (rs ++ [mkRepo aUrl aPath aBranch aCommit aDepth]).any
        (fun r => r.path == some aPath) = true := by
      simp [mkRepo]
    rw [update_repository_commit]
    simp only [ConfigData.truthy, ConfigData.hasKey, Bool.or_true, Bool.and_self,
      Bool.not_true, Bool.false_eq_true, if_false, hany, if_true]
    rw [setCommitFirst_append_last rs _ _ _ hnew (by simp [mkRepo])]
    rfl
  simp only [command_add, h1, hadd, hfind, hclone, hupd, save_config_main]

/-- Witness for `command_add_persists_clone_result`: a concrete add whose
clone fails (every git call fails), leaving the appended descriptor
persisted with a null commit. -/
theorem command_add_persists_clone_result_witness :
    command_add oAllFail ("/b") ("p") ("u") none none none false
      ⟨some ⟨.list [], false⟩, st0, none, none⟩
      = .ok ⟨some ⟨.list [mkRepo ("u") ("p") none none none], false⟩,
          ⟨[("/b")], [],
            [.git ["clone", "--filter=blob:none", "--single-branch", "u", "/b/p"] ("/b")]⟩,
          some ⟨.list [mkRepo ("u") ("p") none none none], false⟩, none⟩ :=
  command_add_persists_clone_result oAllFail ("/b") ("p") ("u") none none none false
    ⟨.list [], false⟩ [] st0
    ⟨[("/b")], [],
      [.git ["clone", "--filter=blob:none", "--single-branch", "u", "/b/p"] ("/b")]⟩
    none rfl rfl (by decide)

/-! ## State-growth lemmas (no directory or `.git` marker disappears while
`git_clean` is off) -/

/-- The state component of an operation outcome, normal or exceptional. -/
def stOfE {α : Type} : Except (PyErr × St) (α × St) → St
  | .ok p => p.2
  | .error p => p.2

/-- Monotone state growth: every directory and `.git` marker present
before is still present after. -/
def StLe (s t : St) : Prop :=
  (∀ x, x ∈ s.dirs → x ∈ t.dirs) ∧ (∀ x, x ∈ s.gitDirs → x ∈ t.gitDirs)

theorem StLe.refl (s : St) : StLe s s := ⟨fun _ h => h, fun _ h => h⟩

theorem StLe.trans {a b c : St} (h1 : StLe a b) (h2 : StLe b c) : StLe a c :=
  ⟨fun x h => h2.1 x (h1.1 x h), fun x h => h2.2 x (h1.2 x h)⟩

theorem mono_err {α β : Type} {st : St} {e : PyErr × St}
    {X : Except (PyErr × St) (α × St)} (heq : X = .error e)
    (hm : StLe st (stOfE X)) : StLe st (stOfE (.error e : Except (PyErr × St) (β × St))) := by
  rw [heq] at hm
  exact hm

theorem mono_ok {α : Type} {st st2 : St} {x : α}
    {X : Except (PyErr × St) (α × St)} (heq : X = .ok (x, st2))
    (hm : StLe st (stOfE X)) : StLe st st2 := by
  rw [heq] at hm
  exact hm

theorem mono_err_pair {α : Type} {st st1 : St} {a : PyErr}
    {X : Except (PyErr × St) (α × St)} (heq : X = .error (a, st1))
    (hm : StLe st (stOfE X)) : StLe st st1 := by
  rw [heq] at hm
  exact hm

theorem run_git_mono (o : GitOracle) (argv : List String) (cwd : String) (st : St) :
    StLe st (stOfE (run_git_command o argv cwd st)) := by
  unfold run_git_command
  dsimp only
  split
  · exact ⟨fun x h => h, fun x h => h⟩
  · split
    · exact ⟨fun x h => h, fun x h => List.mem_append_left _ h⟩
    · split
      · exact ⟨fun x h => List.mem_append_left _ h, fun x h => List.mem_append_left _ h⟩
      · exact ⟨fun x h => h, fun x h => h⟩
    · exact ⟨fun x h => h, fun x h => h⟩
    · exact ⟨fun x h => h, fun x h => h⟩

theorem fetch_and_reset_mono (o : GitOracle) (f r p : String) (j : Nat) (st : St) :
    StLe st (stOfE (fetch_and_reset o f r p j st)) := by
  unfold fetch_and_reset
  split
  next e heq => exact mono_err heq (run_git_mono _ _ _ _)
  next x st1 heq =>
    have h1 := mono_ok heq (run_git_mono _ _ _ _)
    split
    next e2 heq2 => exact StLe.trans h1 (mono_err heq2 (run_git_mono _ _ _ _))
    next x2 st2 heq2 =>
      have h2 := StLe.trans h1 (mono_ok heq2 (run_git_mono _ _ _ _))
      split
      next e3 heq3 => exact StLe.trans h2 (mono_err heq3 (run_git_mono _ _ _ _))
      next x3 st3 heq3 => exact StLe.trans h2 (mono_ok heq3 (run_git_mono _ _ _ _))

theorem recreate_git_mono (o : GitOracle) (url branch commit p : String) (st : St) :
    StLe st (stOfE (recreate_git o url branch commit p st)) := by
  unfold recreate_git
  split
  · split
    next e heq => exact mono_err heq (run_git_mono _ _ _ _)
    next x st1 heq =>
      have h1 := mono_ok heq (run_git_mono _ _ _ _)
      split
      next e2 heq2 => exact StLe.trans h1 (mono_err heq2 (run_git_mono _ _ _ _))
      next x2 st2 heq2 =>
        have h2 := StLe.trans h1 (mono_ok heq2 (run_git_mono _ _ _ _))
        split
        next e3 heq3 => exact StLe.trans h2 (mono_err heq3 (run_git_mono _ _ _ _))
        next x3 st3 heq3 =>
          have h3 := StLe.trans h2 (mono_ok heq3 (run_git_mono _ _ _ _))
          exact StLe.trans h3 (fetch_and_reset_mono _ _ _ _ _ _)
  · exact StLe.refl st

theorem current_commit_hash_mono (o : GitOracle) (p : String) (st : St) :
    StLe st (current_commit_hash o p st).2 := by
  unfold current_commit_hash
  split
  · exact StLe.refl st
  · split
    next a st1 heq =>
      have h := run_git_mono o ["rev-parse", "HEAD"] p st
      rw [heq] at h
      exact h
    next s st1 heq =>
      have h := run_git_mono o ["rev-parse", "HEAD"] p st
      rw [heq] at h
      exact h

theorem cloneFinish_mono (o : GitOracle) (absPath : String) (st : St) :
    StLe st (stOfE (cloneFinish o absPath false st)) := by
  unfold cloneFinish
  split
  next c st2 heq =>
    have h : StLe st st2 := by
      have h0 := current_commit_hash_mono o absPath st
      rw [heq] at h0
      exact h0
    split
    next hf => exact absurd hf (by simp)
    next => exact h

theorem updateFetch_mono (o : GitOracle) (rd : RepoData) (branchS : String)
    (remote : Bool) (absPath : String) (jobs : Nat) (st : St) :
    StLe st (stOfE (updateFetch o rd branchS remote absPath jobs st)) := by
  unfold updateFetch
  split <;> exact fetch_and_reset_mono _ _ _ _ _ _

theorem updateBody_mono (o : GitOracle) (rd : RepoData) (branchS : String)
    (remote : Bool) (absPath : String) (jobs : Nat) (st : St) :
    StLe st (stOfE (updateBody o rd branchS remote false absPath jobs st)) := by
  unfold updateBody
  split
  next e heq => exact mono_err heq (updateFetch_mono _ _ _ _ _ _ _)
  next x st1 heq =>
    have h1 := mono_ok heq (updateFetch_mono _ _ _ _ _ _ _)
    exact StLe.trans h1 (cloneFinish_mono _ _ _)

theorem cloneStep1_mono (o : GitOracle) (rd : RepoData) (absPath parentDir : String)
    (jobs : Nat) (st : St) :
    StLe st (stOfE (cloneStep1 o rd absPath parentDir jobs st)) := by
  unfold cloneStep1
  split
  · split
    next e heq => exact mono_err heq (run_git_mono _ _ _ _)
    next x st1 heq => exact mono_ok heq (run_git_mono _ _ _ _)
  · exact StLe.refl st

theorem cloneStep2_mono (o : GitOracle) (rd : RepoData) (absPath : String)
    (jobs : Nat) (st : St) :
    StLe st (stOfE (cloneStep2 o rd absPath jobs st)) := by
  unfold cloneStep2
  split
  · exact fetch_and_reset_mono _ _ _ _ _ _
  · exact StLe.refl st

theorem cloneBody_mono (o : GitOracle) (rd : RepoData) (absPath parentDir : String)
    (jobs : Nat) (st : St) :
    StLe st (stOfE (cloneBody o rd absPath parentDir false jobs st)) := by
  unfold cloneBody
  split
  next e heq => exact mono_err heq (cloneStep1_mono _ _ _ _ _ _)
  next x st1 heq =>
    have h1 := mono_ok heq (cloneStep1_mono _ _ _ _ _ _)
    split
    next e2 heq2 => exact StLe.trans h1 (mono_err heq2 (cloneStep2_mono _ _ _ _ _))
    next x2 st2 heq2 =>
      have h2 := StLe.trans h1 (mono_ok heq2 (cloneStep2_mono _ _ _ _ _))
      exact StLe.trans h2 (cloneFinish_mono _ _ _)

theorem makedirs_mono (p : String) (st : St) : StLe st (makedirs p st) :=
  ⟨fun x h => List.mem_append_left _ h, fun x h => h⟩

theorem clone_mono (o : GitOracle) (rd : RepoData) (base : String) (jobs : Nat)
    (st : St) : StLe st (stOfE (clone o rd base false jobs st)) := by
  unfold clone
  dsimp only
  split
  · exact StLe.refl st
  · split
    next e heq => exact mono_err heq (recreate_git_mono _ _ _ _ _ _)
    next x st1 heq =>
      have h1 := mono_ok heq (recreate_git_mono _ _ _ _ _ _)
      have h2 : StLe st1 (if !(st1.hasDir (dirname (pathJoin base (pyStr rd.path))))
          then makedirs (dirname (pathJoin base (pyStr rd.path))) st1 else st1) := by
        split
        · exact makedirs_mono _ _
        · exact StLe.refl st1
      split
      next f2 e2 heq2 =>
        refine StLe.trans h1 ?_
        have h3 := mono_err_pair heq2 (cloneBody_mono _ _ _ _ _ _)
        exact StLe.trans h2 h3
      next c2 st2 heq2 =>
        refine StLe.trans h1 ?_
        have h3 := mono_ok heq2 (cloneBody_mono _ _ _ _ _ _)
        exact StLe.trans h2 h3

theorem update_mono (o : GitOracle) (rd : RepoData) (base : String)
    (remote ilc : Bool) (jobs : Nat) (st : St) :
    StLe st (stOfE (update o rd base remote false ilc jobs st)) := by
  unfold update
  dsimp only
  split
  · exact StLe.refl st
  next rpath hrp =>
    split
    · exact StLe.refl st
    · split
      next e heq => exact mono_err heq (recreate_git_mono _ _ _ _ _ _)
      next x st1 heq =>
        have h1 := mono_ok heq (recreate_git_mono _ _ _ _ _ _)
        split
        · exact StLe.trans h1 (clone_mono _ _ _ _ _)
        · split
          next f2 e2 heq2 =>
            exact StLe.trans h1 (mono_err_pair heq2 (updateBody_mono _ _ _ _ _ _ _))
          next c2 st2 heq2 =>
            exact StLe.trans h1 (mono_ok heq2 (updateBody_mono _ _ _ _ _ _ _))

/-- `_has_git` is preserved by state growth. -/
theorem has_git_mono {s t : St} (h : StLe s t) {q : String}
    (hg : has_git s q = true) : has_git t q = true := by
  simp only [has_git, exist_repo, St.hasDir, St.hasGitDir, Bool.and_eq_true] at hg ⊢
  exact ⟨contains_iff_mem.mpr (h.1 q (contains_iff_mem.mp hg.1)),
    contains_iff_mem.mpr (h.2 q (contains_iff_mem.mp hg.2))⟩

/-! ## C1 -/

/-- `_recreate_git` is a no-op unless the working copy is untracked. -/
theorem recreate_git_skip {o : GitOracle} {url branch commit p : String} {st : St}
    (h : untracked st p = false) :
    recreate_git o url branch commit p st = .ok ((), st) := by
  unfold recreate_git
  simp only [untracked] at h
  simp [h]

/-- Every failure inside `clone`'s `try` block is caught: when the
working copy is not in the untracked state (so `_recreate_git` does
nothing), `clone` returns normally for every oracle. -/
theorem clone_ok (o : GitOracle) (rd : RepoData) (base : String) (gc : Bool)
    (jobs : Nat) (st : St)
    (h : optAll (fun p => !(untracked st (pathJoin base p))) rd.path = true) :
    isOkE (clone o rd base gc jobs st) = true := by
  unfold clone
  split
  · rfl
  next hng =>
    have hu : untracked st (pathJoin base (pyStr rd.path)) = false := by
      cases hrdp : rd.path with
      | none =>
        exfalso
        apply hng
        simp [truthyS, hrdp]
      | some p =>
        rw [hrdp] at h
        simpa [optAll, pyStr] using h
    dsimp only
    rw [recreate_git_skip hu]
    dsimp only
    split <;> rfl

/-- Every failure inside `update`'s `try` block is caught: on a tracked
working copy, `update` with `git_clean` off returns normally for every
oracle, and the filesystem only grows. -/
theorem update_ok_tracked (o : GitOracle) (rd : RepoData) (base : String)
    (remote ilc : Bool) (jobs : Nat) (st : St) (p : String)
    (hp : rd.path = some p) (hg : has_git st (pathJoin base p) = true) :
    ∃ c st2, update o rd base remote false ilc jobs st = .ok (c, st2) ∧ StLe st st2 := by
  unfold update
  rw [hp]
  dsimp only
  by_cases hpr : (has_git st (pathJoin base p) && !ilc && !o.confirm) = true
  · rw [if_pos hpr]
    exact ⟨none, st, rfl, StLe.refl st⟩
  · rw [if_neg hpr]
    have hnu : untracked st (pathJoin base p) = false := by
      simp [untracked, hg]
    rw [recreate_git_skip hnu]
    dsimp only
    have hex : exist_repo st (pathJoin base p) = true := by
      simp only [has_git, Bool.and_eq_true] at hg
      exact hg.1
    rw [if_neg (by simp [hex])]
    cases hub : updateBody o rd (pyStr rd.branch) remote false (pathJoin base p) jobs st with
    | error e =>
      obtain ⟨a, st2⟩ := e
      exact ⟨none, st2, rfl, mono_err_pair hub (updateBody_mono _ _ _ _ _ _ _)⟩
    | ok cs =>
      obtain ⟨c, st2⟩ := cs
      exact ⟨c, st2, rfl, mono_ok hub (updateBody_mono _ _ _ _ _ _ _)⟩

theorem get_repositories_of_list {c : ConfigData} {rs : List RepoData}
    (h : c.repos = .list rs) : get_repositories (some c) = rs := by
  simp [get_repositories, ConfigData.truthy, ConfigData.hasKey, ConfigData.reposList, h]

/-- `update_repository_commit` rewrites only `commit` fields: the path
sequence of the manifest is unchanged. -/
theorem setCommitFirst_paths (rs : List RepoData) (pp v : Option String) :
    (setCommitFirst rs pp v).map (·.path) = rs.map (·.path) := by
  induction rs with
  | nil => rfl
  | cons a t ih =>
    by_cases h : (a.path == pp) = true
    · simp [setCommitFirst, h]
    · simp only [Bool.not_eq_true] at h
      simp [setCommitFirst, h, ih]

/-- One driver step over a tracked descriptor present in the manifest
returns normally, grows the filesystem, and keeps the manifest's path
sequence. -/
theorem updateStep_ok (o : GitOracle) (base : String) (remote ilc : Bool)
    (rd : RepoData) (d : Drv) (c : ConfigData) (rs : List RepoData) (p : String)
    (hcfg : d.cfg = some c) (hrep : c.repos = .list rs)
    (hp : rd.path = some p) (hg : has_git d.st (pathJoin base p) = true)
    (hmem : rs.any (fun r => r.path == rd.path) = true) :
    ∃ d2 c2 rs2, updateStep o base remote false ilc rd d = .ok d2 ∧ StLe d.st d2.st
      ∧ d2.cfg = some c2 ∧ c2.repos = .list rs2
      ∧ rs2.map (·.path) = rs.map (·.path) := by
  obtain ⟨copt, st2, hupd, hle⟩ := update_ok_tracked o rd base remote ilc 1 d.st p hp hg
  unfold updateStep
  rw [hupd]
  dsimp only
  by_cases htr : truthyS copt = true
  · rw [if_neg (by simp [htr])]
    rw [hcfg]
    have ht : c.truthy = true := by simp [ConfigData.truthy, hrep]
    have hk : c.hasKey = true := by simp [ConfigData.hasKey, hrep]
    have hurc : update_repository_commit (some c) rd.path copt
        = .ok (true, some { c with repos := .list (setCommitFirst rs rd.path copt) }) := by
      unfold update_repository_commit
      dsimp only
      rw [ht, hk]
      simp only [Bool.and_self, Bool.not_true, Bool.false_eq_true, if_false]
      rw [hrep]
      dsimp only
      rw [hmem]
      simp
    rw [hurc]
    dsimp only
    refine ⟨_, { c with repos := .list (setCommitFirst rs rd.path copt) },
      setCommitFirst rs rd.path copt, rfl, ?_, ?_, rfl,
      setCommitFirst_paths rs rd.path copt⟩
    · simpa [save_config_main] using hle
    · simp [save_config_main]
  · rw [if_pos (by simp [htr])]
    exact ⟨{ d with st := st2 }, c, rs, rfl, hle, hcfg, hrep, rfl⟩

/-- Batch invariant: every descriptor of the current in-memory manifest
has a declared path and a tracked working copy. -/
def GoodD (base : String) (d : Drv) : Prop :=
  ((get_repositories d.cfg).all fun rd =>
    rd.path.isSome && has_git d.st (pathJoin base (pyStr rd.path))) = true

/-- The `command_update` loop returns normally — for every oracle,
however its subprocess calls fail — as long as each descriptor has a path
and a tracked working copy: per-descriptor failures are caught and the
loop moves on. -/
theorem updateLoop_ok (o : GitOracle) (base : String) (remote ilc : Bool) :
    ∀ (idxs : List Nat) (d : Drv), GoodD base d →
      isOkE (updateLoopIdx o base remote false ilc idxs d) = true := by
  intro idxs
  induction idxs with
  | nil => intro d _; rfl
  | cons i rest ih =>
    intro d hgood
    unfold updateLoopIdx
    cases hget : (get_repositories d.cfg)[i]? with
    | none => rfl
    | some rd =>
      dsimp only
      have hmem_rd : rd ∈ get_repositories d.cfg := List.getElem?_mem hget
      have hprop := (List.all_eq_true.mp hgood) rd hmem_rd
      simp only [Bool.and_eq_true] at hprop
      obtain ⟨hps, hgit⟩ := hprop
      obtain ⟨p, hp⟩ := Option.isSome_iff_exists.mp hps
      have hshape : ∃ c rs, d.cfg = some c ∧ c.repos = .list rs
          ∧ get_repositories d.cfg = rs := by
        cases hc : d.cfg with
        | none => rw [hc] at hget; simp [get_repositories] at hget
        | some c =>
          cases hr : c.repos with
          | absent =>
            rw [hc] at hget
            simp [get_repositories, ConfigData.hasKey, hr] at hget
          | null =>
            rw [hc] at hget
            simp [get_repositories, ConfigData.truthy, ConfigData.hasKey,
              ConfigData.reposList, hr] at hget
          | list rs => exact ⟨c, rs, rfl, hr, get_repositories_of_list hr⟩
      obtain ⟨c, rs, hc, hr, hgr⟩ := hshape
      have hmem2 : rs.any (fun r => r.path == rd.path) = true := by
        refine List.any_eq_true.mpr ⟨rd, ?_, by simp⟩
        rw [← hgr]
        exact hmem_rd
      have hgit2 : has_git d.st (pathJoin base p) = true := by
        rw [hp] at hgit
        simpa [pyStr] using hgit
      obtain ⟨d2, c2, rs2, hstep, hle, hc2, hr2, hpaths⟩ :=
        updateStep_ok o base remote ilc rd d c rs p hc hr hp hgit2 hmem2
      rw [hstep]
      dsimp only
      apply ih
      unfold GoodD
      have hgr2 : get_repositories d2.cfg = rs2 := by
        rw [hc2]
        exact get_repositories_of_list hr2
      rw [hgr2]
      rw [List.all_eq_true]
      intro r2 hr2mem
      have hpmem : r2.path ∈ rs2.map (fun r => r.path) := List.mem_map_of_mem _ hr2mem
      rw [hpaths] at hpmem
      obtain ⟨r1, hr1mem, hpe⟩ := List.mem_map.mp hpmem
      have h1 := (List.all_eq_true.mp hgood) r1 (by rw [hgr]; exact hr1mem)
      simp only [Bool.and_eq_true] at h1
      rw [← hpe]
      simp only [Bool.and_eq_true]
      exact ⟨h1.1, has_git_mono hle h1.2⟩

/-- C1 amended: adapter failures inside the `try` blocks of
`clone`/`update` are caught at the descriptor level and yield no result,
so a batch `update` over descriptors with declared paths and tracked
working copies completes normally for every oracle, persisting each
success immediately; but a failure during the `_recreate_git` phase
(working copy present without `.git`), which runs outside the `try`
blocks, propagates to the caller and aborts the batch
(`clone_recreate_failure_raises`). -/
theorem adapter_failures_caught :
    (∀ (o : GitOracle) (rd : RepoData) (base : String) (gc : Bool) (jobs : Nat) (st : St),
       optAll (fun p => !(untracked st (pathJoin base p))) rd.path = true →
       isOkE (clone o rd base gc jobs st) = true)
    ∧ (∀ (o : GitOracle) (base : String) (remote ilc : Bool) (cfg : ConfigData) (st : St),
       ((get_repositories (some cfg)).all fun rd =>
          rd.path.isSome && has_git st (pathJoin base (pyStr rd.path))) = true →
       isOkE (command_update o base none remote false ilc ⟨some cfg, st, none, none⟩) = true) := by
  constructor
  · exact clone_ok
  · intro o base remote ilc cfg st hgood
    unfold command_update
    rw [if_neg (by simp [truthyS])]
    exact updateLoop_ok o base remote ilc (List.range _) ⟨some cfg, st, none, none⟩ hgood

/-- Witness for `adapter_failures_caught`: with an oracle on which every
git call fails, a clone over an absent working copy still returns
normally, and a whole-manifest `update` over a tracked working copy
completes normally. -/
theorem adapter_failures_caught_witness :
    isOkE (clone oAllFail (mkRepo ("u") ("p") none none none) ("/b") false 1 st0) = true
    ∧ isOkE (command_update oAllFail ("/b") none true false true
        ⟨some ⟨.list [mkRepo ("u") ("p") none (some ("c")) none], false⟩,
          ⟨[("/b/p")], [("/b/p")], []⟩, none, none⟩) = true :=
  ⟨adapter_failures_caught.1 oAllFail (mkRepo ("u") ("p") none none none) ("/b")
      false 1 st0 (by decide),
   adapter_failures_caught.2 oAllFail ("/b") true true
      ⟨.list [mkRepo ("u") ("p") none (some ("c")) none], false⟩
      ⟨[("/b/p")], [("/b/p")], []⟩ (by decide)⟩

/-! ## C6 -/

/-- `rm` returns normally for every descriptor with a declared path. -/
theorem rm_ok {r : RepoData} {p : String} (base : String) (st : St)
    (hp : r.path = some p) : ∃ st2, rm r base st = .ok (none, st2) := by
  unfold rm
  rw [hp]
  dsimp only
  split
  · exact ⟨st, rfl⟩
  · exact ⟨_, rfl⟩

/-- The shadow-pruning loop returns normally when every shadow entry has
a declared path. -/
theorem removeDeletedLoop_ok (base : String) (current : List (Option String)) :
    ∀ (shadow : List RepoData) (st : St),
      shadow.all (fun r => r.path.isSome) = true →
      ∃ st2, removeDeletedLoop base current shadow st = .ok st2 := by
  intro shadow
  induction shadow with
  | nil => intro st _; exact ⟨st, rfl⟩
  | cons r rest ih =>
    intro st hall
    simp only [List.all_cons, Bool.and_eq_true] at hall
    obtain ⟨p, hp⟩ := Option.isSome_iff_exists.mp hall.1
    unfold removeDeletedLoop
    by_cases hcur : current.contains r.path = true
    · rw [if_pos hcur]
      exact ih st hall.2
    · rw [if_neg hcur]
      obtain ⟨st1, hrm⟩ := rm_ok base st hp
      rw [hrm]
      exact ih st1 hall.2

/-- A path lookup misses when no descriptor of the manifest carries it. -/
theorem get_repository_miss (cfg : ConfigData) (p : String)
    (hmiss : (get_repositories (some cfg)).all (fun r => !(r.path == some p)) = true) :
    get_repository (some cfg) (some p) = none := by
  unfold get_repository
  dsimp only
  by_cases htk : (cfg.truthy && cfg.hasKey) = true
  · rw [if_pos htk]
    have hrs : get_repositories (some cfg) = cfg.reposList := by
      simp [get_repositories, htk]
    rw [hrs] at hmiss
    have hf : cfg.reposList.filter (fun r => r.path == some p) = [] := by
      rw [List.filter_eq_nil_iff]
      intro a ha
      have := (List.all_eq_true.mp hmiss) a ha
      simpa using this
    rw [hf]
    rfl
  · rw [if_neg htk]

/-- C6: the `rm` command on a path declared in neither descriptor of the
manifest exits with code 1, and neither the manifest file nor its shadow
file is written before the exit: the lookup miss raises `sys.exit(1)`
inside `command_rm`, skipping both `save_config` calls. -/
theorem command_rm_miss_exits (base p : String) (cfg : ConfigData)
    (hidden : Option ConfigData) (st : St)
    (hmiss : (get_repositories (some cfg)).all (fun r => !(r.path == some p)) = true)
    (hsh : (get_repositories hidden).all (fun r => r.path.isSome) = true) :
    errOfD (handle_rm_operation base p (some cfg) hidden st) = some (.exit 1)
    ∧ (drvOf (handle_rm_operation base p (some cfg) hidden st)).savedMain = none
    ∧ (drvOf (handle_rm_operation base p (some cfg) hidden st)).savedShadow = none := by
  obtain ⟨st2, hloop⟩ := removeDeletedLoop_ok base
    ((get_repositories (some cfg)).map (·.path)) (get_repositories hidden) st hsh
  have hrds : remove_deleted_submodules base (some cfg) hidden st = .ok st2 := by
    unfold remove_deleted_submodules
    exact hloop
  have hcmd : command_rm base p ⟨some cfg, st2, none, none⟩
      = .error (.exit 1, ⟨some cfg, st2, none, none⟩) := by
    unfold command_rm
    dsimp only
    rw [get_repository_miss cfg p hmiss]
  unfold handle_rm_operation
  rw [hrds]
  dsimp only
  rw [hcmd]
  exact ⟨rfl, rfl, rfl⟩

/-- Witness for `command_rm_miss_exits`: a concrete manifest without the
requested path, an empty shadow, and an empty filesystem. -/
theorem command_rm_miss_exits_witness :
    errOfD (handle_rm_operation ("/b") ("q")
        (some ⟨.list [mkRepo ("u") ("x") none none none], false⟩) none st0)
      = some (.exit 1)
    ∧ (drvOf (handle_rm_operation ("/b") ("q")
        (some ⟨.list [mkRepo ("u") ("x") none none none], false⟩) none st0)).savedMain
      = none
    ∧ (drvOf (handle_rm_operation ("/b") ("q")
        (some ⟨.list [mkRepo ("u") ("x") none none none], false⟩) none st0)).savedShadow
      = none :=
  command_rm_miss_exits ("/b") ("q") ⟨.list [mkRepo ("u") ("x") none none none], false⟩
    none st0 (by decide) (by decide)

/-! ## C7 -/

/-- The working-copy location of a shadow entry, as joined by
`operations.rm`. -/
def jpn (base : String) (r : RepoData) : String := pathJoin base (pyStr r.path)

/-- Two entries have separated working copies: distinct locations,
neither nested inside the other. -/
def sepJB (base : String) (a b : RepoData) : Bool :=
  (jpn base a != jpn base b)
    && !(strStartsWith (jpn base b) (jpn base a ++ ("/")))
    && !(strStartsWith (jpn base a) (jpn base b ++ ("/")))

/-- All entries of the list are pairwise separated. -/
def pairwiseSep (base : String) : List RepoData → Bool
  | [] => true
  | r :: rest => rest.all (sepJB base r) && pairwiseSep base rest

/-- A directory distinct from and not nested under the removed root
survives `removeTree`. -/
theorem mem_removeTree {d q : String} {st : St} (hd : d ∈ st.dirs)
    (hne : d ≠ q) (hpre : strStartsWith d (q ++ ("/")) = false) :
    d ∈ (removeTree q st).dirs := by
  refine List.mem_filter.mpr ⟨hd, ?_⟩
  simp [hne, hpre]

/-- The shadow-pruning loop issues exactly the removals of the
shadow-minus-current entries, in shadow order, when every shadow entry
has a path, the working copies are pairwise separated, and each exists on
disk. -/
theorem removeDeletedLoop_events (base : String) (current : List (Option String)) :
    ∀ (shadow : List RepoData) (st : St),
      shadow.all (fun r => r.path.isSome) = true →
      pairwiseSep base shadow = true →
      shadow.all (fun r => decide (jpn base r ∈ st.dirs)) = true →
      ∃ st2, removeDeletedLoop base current shadow st = .ok st2
        ∧ st2.events = st.events
            ++ (shadow.filter (fun r => !(current.contains r.path))).map
                (fun r => Event.rmtree (jpn base r)) := by
  intro shadow
  induction shadow with
  | nil => intro st _ _ _; exact ⟨st, rfl, by simp⟩
  | cons r rest ih =>
    intro st hall hpw hex
    simp only [List.all_cons, Bool.and_eq_true] at hall hex
    simp only [pairwiseSep, Bool.and_eq_true] at hpw
    obtain ⟨p, hp⟩ := Option.isSome_iff_exists.mp hall.1
    unfold removeDeletedLoop
    by_cases hcur : current.contains r.path = true
    · rw [if_pos hcur]
      obtain ⟨st2, hloop, hev⟩ := ih st hall.2 hpw.2 hex.2
      refine ⟨st2, hloop, ?_⟩
      rw [hev]
      congr 1
      rw [List.filter_cons]
      rw [hcur]
      rfl
    · rw [if_neg hcur]
      have hjpn : jpn base r = pathJoin base p := by simp [jpn, hp, pyStr]
      have hdir : st.hasDir (pathJoin base p) = true := by
        rw [← hjpn]
        exact contains_iff_mem.mpr (of_decide_eq_true hex.1)
      have hrm : rm r base st = .ok (none,
          ⟨(removeTree (jpn base r) st).dirs, (removeTree (jpn base r) st).gitDirs,
            st.events ++ [.rmtree (jpn base r)]⟩) := by
        unfold rm
        rw [hp]
        dsimp only
        rw [if_neg (by simp [hdir])]
        rw [hjpn]
        rfl
      rw [hrm]
      dsimp only
      have hex2 : rest.all (fun r2 =>
          decide (jpn base r2 ∈ (removeTree (jpn base r) st).dirs)) = true := by
        rw [List.all_eq_true]
        intro r2 hr2
        have hsep := (List.all_eq_true.mp hpw.1) r2 hr2
        simp only [sepJB, Bool.and_eq_true, bne_iff_ne, Bool.not_eq_true] at hsep
        have hin := of_decide_eq_true ((List.all_eq_true.mp hex.2) r2 hr2)
        exact decide_eq_true (mem_removeTree hin (Ne.symm hsep.1.1)
          (by simpa using hsep.1.2))
      obtain ⟨st2, hloop, hev⟩ := ih
        ⟨(removeTree (jpn base r) st).dirs, (removeTree (jpn base r) st).gitDirs,
          st.events ++ [.rmtree (jpn base r)]⟩ hall.2 hpw.2 hex2
      refine ⟨st2, hloop, ?_⟩
      rw [hev]
      have hb : current.contains r.path = false := by simpa using hcur
      rw [List.filter_cons]
      rw [hb]
      simp [List.append_assoc]

/-- In a pairwise-separated shadow list, the removal for a shadow path
appears exactly once when the path is absent from the current manifest
and never otherwise. -/
theorem removal_count (base : String) (current : List (Option String)) :
    ∀ (shadow : List RepoData), pairwiseSep base shadow = true →
      ∀ P : String, (some P) ∈ shadow.map (fun r => r.path) →
        ((shadow.filter (fun r => !(current.contains r.path))).map
            (fun r => Event.rmtree (jpn base r))).count (.rmtree (pathJoin base P))
          = if current.contains (some P) then 0 else 1 := by
  intro shadow
  induction shadow with
  | nil => intro _ P hP; simp at hP
  | cons r rest ih =>
    intro hpw P hP
    simp only [pairwiseSep, Bool.and_eq_true] at hpw
    have hzero : ∀ x : String, (∀ r2 ∈ rest, jpn base r2 ≠ x) →
        ((rest.filter (fun r => !(current.contains r.path))).map
            (fun r => Event.rmtree (jpn base r))).count (.rmtree x) = 0 := by
      intro x hx
      rw [List.count_eq_zero]
      intro hmem
      obtain ⟨r2, hr2, he⟩ := List.mem_map.mp hmem
      exact hx r2 (List.mem_of_mem_filter hr2) (by simpa using he)
    by_cases hpe : r.path = some P
    · have hjr : jpn base r = pathJoin base P := by simp [jpn, hpe, pyStr]
      have hrestne : ∀ r2 ∈ rest, jpn base r2 ≠ pathJoin base P := by
        intro r2 hr2
        have hsep := (List.all_eq_true.mp hpw.1) r2 hr2
        simp only [sepJB, Bool.and_eq_true, bne_iff_ne] at hsep
        rw [← hjr]
        exact Ne.symm hsep.1.1
      by_cases hcur : current.contains (some P) = true
      · rw [if_pos hcur]
        have hcr : current.contains r.path = true := by rw [hpe]; exact hcur
        rw [List.filter_cons]
        rw [hcr]
        have hred : (if (!true) = true then r :: rest.filter
            (fun r => !(current.contains r.path)) else rest.filter
            (fun r => !(current.contains r.path)))
            = rest.filter (fun r => !(current.contains r.path)) := by simp
        rw [hred]
        exact hzero (pathJoin base P) hrestne
      · rw [if_neg hcur]
        have hb : current.contains r.path = false := by
          rw [hpe]
          simpa using hcur
        rw [List.filter_cons]
        rw [hb]
        have hred : (if (!false) = true then r :: rest.filter
            (fun r => !(current.contains r.path)) else rest.filter
            (fun r => !(current.contains r.path)))
            = r :: rest.filter (fun r => !(current.contains r.path)) := by simp
        rw [hred]
        rw [List.map_cons, List.count_cons]
        rw [hzero (pathJoin base P) hrestne]
        simp [hjr]
    · rw [List.map_cons] at hP
      have hPrest : (some P) ∈ rest.map (fun r => r.path) := by
        rcases List.mem_cons.mp hP with h | h
        · exact absurd h.symm hpe
        · exact h
      have hrne : jpn base r ≠ pathJoin base P := by
        obtain ⟨rP, hrP, hrPp⟩ := List.mem_map.mp hPrest
        have hsep := (List.all_eq_true.mp hpw.1) rP hrP
        simp only [sepJB, Bool.and_eq_true, bne_iff_ne] at hsep
        have hjp : jpn base rP = pathJoin base P := by simp [jpn, hrPp, pyStr]
        rw [← hjp]
        exact hsep.1.1
      rw [← ih hpw.2 P hPrest]
      by_cases hcur : current.contains r.path = true
      · rw [List.filter_cons]
        rw [hcur]
        rfl
      · have hb : current.contains r.path = false := by simpa using hcur
        rw [List.filter_cons]
        rw [hb]
        have hred : (if (!false) = true then r :: rest.filter
            (fun r => !(current.contains r.path)) else rest.filter
            (fun r => !(current.contains r.path)))
            = r :: rest.filter (fun r => !(current.contains r.path)) := by simp
        rw [hred]
        rw [List.map_cons, List.count_cons]
        simp [hrne]

/-- C7: starting from an empty event log, reconciliation's shadow diff
issues exactly one working-copy removal for each shadow entry whose path
is absent from the current manifest (in shadow order) and none for
entries whose path is present in both, assuming each shadow entry has a
path and an existing, pairwise-separated working copy. -/
theorem removal_diff_exact (base : String) (cfg : ConfigData)
    (hidden : Option ConfigData) (st : St)
    (hev0 : st.events = [])
    (hall : (get_repositories hidden).all (fun r => r.path.isSome) = true)
    (hpw : pairwiseSep base (get_repositories hidden) = true)
    (hex : (get_repositories hidden).all (fun r => decide (jpn base r ∈ st.dirs)) = true) :
    isOkE (remove_deleted_submodules base (some cfg) hidden st) = true
    ∧ (stOfD (remove_deleted_submodules base (some cfg) hidden st)).events
        = ((get_repositories hidden).filter
            (fun r => !(((get_repositories (some cfg)).map (fun r => r.path)).contains
              r.path))).map (fun r => Event.rmtree (jpn base r))
    ∧ ((get_repositories hidden).filterMap (fun r => r.path)).all (fun P =>
        ((stOfD (remove_deleted_submodules base (some cfg) hidden st)).events.count
            (Event.rmtree (pathJoin base P))
          == if ((get_repositories (some cfg)).map (fun r => r.path)).contains (some P)
              then 0 else 1)) = true := by
  obtain ⟨st2, hloop, hev⟩ := removeDeletedLoop_events base
    ((get_repositories (some cfg)).map (fun r => r.path)) (get_repositories hidden)
    st hall hpw hex
  have hrds : remove_deleted_submodules base (some cfg) hidden st = .ok st2 := by
    unfold remove_deleted_submodules
    exact hloop
  rw [hrds]
  have hev2 : st2.events = ((get_repositories hidden).filter
      (fun r => !(((get_repositories (some cfg)).map (fun r => r.path)).contains
        r.path))).map (fun r => Event.rmtree (jpn base r)) := by
    rw [hev, hev0]
    simp
  refine ⟨rfl, hev2, ?_⟩
  rw [List.all_eq_true]
  intro P hPmem
  have hPmap : (some P) ∈ (get_repositories hidden).map (fun r => r.path) := by
    obtain ⟨r, hr, hrp⟩ := List.mem_filterMap.mp hPmem
    exact List.mem_map.mpr ⟨r, hr, hrp⟩
  have hcount := removal_count base
    ((get_repositories (some cfg)).map (fun r => r.path)) (get_repositories hidden)
    hpw P hPmap
  have : (stOfD (Except.ok st2 : Except (PyErr × St) St)).events = st2.events := rfl
  rw [this, hev2, hcount]
  simp

/-- Concrete current manifest for exercising the removal diff: declares
only `y`. -/
def c7cfg : ConfigData := ⟨.list [mkRepo ("u") ("y") none none none], false⟩

/-- Concrete shadow manifest: declares `x` (now removed) and `y`
(still present). -/
def c7hidden : Option ConfigData :=
  some ⟨.list [mkRepo ("u") ("x") none none none,
    mkRepo ("u") ("y") none none none], false⟩

/-- Concrete filesystem with both working copies on disk. -/
def c7st : St := ⟨[("/b/x"), ("/b/y")], [], []⟩

/-- Witness for `removal_diff_exact` at the concrete manifests: exactly
one removal (of `x`) is issued and none for `y`. -/
theorem removal_diff_exact_witness :
    isOkE (remove_deleted_submodules ("/b") (some c7cfg) c7hidden c7st) = true
    ∧ (stOfD (remove_deleted_submodules ("/b") (some c7cfg) c7hidden c7st)).events
        = ((get_repositories c7hidden).filter
            (fun r => !(((get_repositories (some c7cfg)).map (fun r => r.path)).contains
              r.path))).map (fun r => Event.rmtree (jpn ("/b") r))
    ∧ ((get_repositories c7hidden).filterMap (fun r => r.path)).all (fun P =>
        ((stOfD (remove_deleted_submodules ("/b") (some c7cfg) c7hidden c7st)).events.count
            (Event.rmtree (pathJoin ("/b") P))
          == if ((get_repositories (some c7cfg)).map (fun r => r.path)).contains (some P)
              then 0 else 1)) = true :=
  removal_diff_exact ("/b") c7cfg c7hidden c7st rfl (by decide) (by decide) (by decide)

/-! ## C5 -/

/-- `git fetch` under an oracle without failures: records the call. -/
theorem run_git_nofail_fetch {o : GitOracle} (hof : ∀ c q, o.fails c q = false)
    (a : List String) (cwd : String) (st : St) :
    run_git_command o ("fetch" :: a) cwd st
      = .ok ("", ⟨st.dirs, st.gitDirs, st.events ++ [.git ("fetch" :: a) cwd]⟩) := by
  unfold run_git_command
  rw [hof ("fetch" :: a) cwd]
  rfl

/-- `git reset` under an oracle without failures: records the call. -/
theorem run_git_nofail_reset {o : GitOracle} (hof : ∀ c q, o.fails c q = false)
    (a : List String) (cwd : String) (st : St) :
    run_git_command o ("reset" :: a) cwd st
      = .ok ("", ⟨st.dirs, st.gitDirs, st.events ++ [.git ("reset" :: a) cwd]⟩) := by
  unfold run_git_command
  rw [hof ("reset" :: a) cwd]
  rfl

/-- `git clean` under an oracle without failures: records the call. -/
theorem run_git_nofail_clean {o : GitOracle} (hof : ∀ c q, o.fails c q = false)
    (a : List String) (cwd : String) (st : St) :
    run_git_command o ("clean" :: a) cwd st
      = .ok ("", ⟨st.dirs, st.gitDirs, st.events ++ [.git ("clean" :: a) cwd]⟩) := by
  unfold run_git_command
  rw [hof ("clean" :: a) cwd]
  rfl

/-- `git rev-parse` under an oracle without failures: records the call
and prints the oracle's head hash. -/
theorem run_git_nofail_revparse {o : GitOracle} (hof : ∀ c q, o.fails c q = false)
    (a : List String) (cwd : String) (st : St) :
    run_git_command o ("rev-parse" :: a) cwd st
      = .ok (o.head cwd, ⟨st.dirs, st.gitDirs, st.events ++ [.git ("rev-parse" :: a) cwd]⟩) := by
  unfold run_git_command
  rw [hof ("rev-parse" :: a) cwd]
  rfl

/-- `_fetch_and_reset` under an oracle without failures issues the
fetch, reset and clean calls in order and changes nothing else. -/
theorem fetch_and_reset_nofail {o : GitOracle} (hof : ∀ c q, o.fails c q = false)
    (f r p : String) (st : St) :
    fetch_and_reset o f r p 1 st
      = .ok ((), ⟨st.dirs, st.gitDirs, st.events
          ++ [.git (fetchCmdOf f 1) p, .git ["reset", "--quiet", "--hard", r] p,
              .git ["clean", "-ffd"] p]⟩) := by
  have hfc : fetchCmdOf f 1 = "fetch" :: ["--depth", "1", "origin", f] := by
    simp [fetchCmdOf]
  unfold fetch_and_reset
  rw [hfc]
  rw [run_git_nofail_fetch hof]
  dsimp only
  rw [run_git_nofail_reset hof]
  dsimp only
  rw [run_git_nofail_clean hof]
  dsimp only
  rw [← hfc]
  simp

/-- The shared finish step under an oracle without failures on a tracked
working copy: reads the head hash (with `git_clean` off). -/
theorem cloneFinish_nofail {o : GitOracle} (hof : ∀ c q, o.fails c q = false)
    (absPath : String) (st : St) (hg : has_git st absPath = true) :
    cloneFinish o absPath false st
      = .ok (some (o.head absPath), ⟨st.dirs, st.gitDirs,
          st.events ++ [.git ["rev-parse", "HEAD"] absPath]⟩) := by
  have hex : exist_repo st absPath = true := by
    simp only [has_git, Bool.and_eq_true] at hg
    exact hg.1
  unfold cloneFinish current_commit_hash
  rw [if_neg (by simp [hex, hg])]
  rw [run_git_nofail_revparse hof]
  rfl

/-- `update --remote` on a tracked working copy under an oracle without
failures: resets to `origin/<branch>`, never to the stored commit, and
returns the freshly resolved head hash. -/
theorem update_nofail_remote {o : GitOracle} (hof : ∀ c q, o.fails c q = false)
    (rd : RepoData) (base p b : String) (st : St)
    (hp : rd.path = some p) (hb : rd.branch = some b)
    (hg : has_git st (pathJoin base p) = true) :
    update o rd base true false true 1 st
      = .ok (some (o.head (pathJoin base p)), ⟨st.dirs, st.gitDirs, st.events
          ++ [.git (fetchCmdOf b 1) (pathJoin base p),
              .git ["reset", "--quiet", "--hard", ("origin/") ++ b] (pathJoin base p),
              .git ["clean", "-ffd"] (pathJoin base p),
              .git ["rev-parse", "HEAD"] (pathJoin base p)]⟩) := by
  have hex : exist_repo st (pathJoin base p) = true := by
    simp only [has_git, Bool.and_eq_true] at hg
    exact hg.1
  unfold update
  rw [hp]
  dsimp only
  rw [if_neg (by simp)]
  rw [recreate_git_skip (by simp [untracked, hg])]
  dsimp only
  rw [if_neg (by simp [hex])]
  have hbS : pyStr rd.branch = b := by rw [hb]; rfl
  unfold updateBody updateFetch
  rw [hbS]
  rw [if_pos rfl]
  rw [fetch_and_reset_nofail hof]
  dsimp only
  have hg2 : has_git (⟨st.dirs, st.gitDirs, st.events
      ++ [.git (fetchCmdOf b 1) (pathJoin base p),
          .git ["reset", "--quiet", "--hard", ("origin/") ++ b] (pathJoin base p),
          .git ["clean", "-ffd"] (pathJoin base p)]⟩ : St) (pathJoin base p) = true := by
    simpa [has_git, exist_repo, St.hasDir, St.hasGitDir] using hg
  rw [cloneFinish_nofail hof _ _ hg2]
  simp

/-- The first element delivered by `head?` belongs to the list. -/
theorem head?_mem {α : Type} {l : List α} {a : α} (h : l.head? = some a) : a ∈ l := by
  cases l with
  | nil => simp at h
  | cons x xs =>
    simp only [List.head?_cons, Option.some.injEq] at h
    rw [← h]
    exact List.mem_cons_self x xs

/-- C5: `update --remote` on a declared descriptor with a branch and a
tracked working copy (local changes ignored, all git calls succeeding,
non-empty resolved head) resets the working copy to `origin/<branch>` —
the reset argument is the remote tracking ref, not the stored `commit` —
and the descriptor's `commit` field is overwritten with the freshly
resolved head hash and persisted to the manifest file. -/
theorem update_remote_tracks_branch (o : GitOracle) (base p b : String)
    (cfg : ConfigData) (rs : List RepoData) (rd : RepoData) (st : St)
    (hof : ∀ c q, o.fails c q = false)
    (hrep : cfg.repos = .list rs)
    (hfind : get_repository (some cfg) (some p) = some rd)
    (hp : rd.path = some p) (hb : rd.branch = some b)
    (hg : has_git st (pathJoin base p) = true)
    (hpne : truthyS (some p) = true)
    (hhead : ((o.head (pathJoin base p)) == ("")) = false) :
    command_update o base (some p) true false true ⟨some cfg, st, none, none⟩
      = .ok ⟨some ⟨.list (setCommitFirst rs (some p) (some (o.head (pathJoin base p)))),
              cfg.hasOtherKeys⟩,
            ⟨st.dirs, st.gitDirs, st.events
              ++ [.git (fetchCmdOf b 1) (pathJoin base p),
                  .git ["reset", "--quiet", "--hard", ("origin/") ++ b] (pathJoin base p),
                  .git ["clean", "-ffd"] (pathJoin base p),
                  .git ["rev-parse", "HEAD"] (pathJoin base p)]⟩,
            some ⟨.list (setCommitFirst rs (some p) (some (o.head (pathJoin base p)))),
              cfg.hasOtherKeys⟩,
            none⟩ := by
  have ht : cfg.truthy = true := by simp [ConfigData.truthy, hrep]
  have hk : cfg.hasKey = true := by simp [ConfigData.hasKey, hrep]
  have hmem : rd ∈ rs := by
    unfold get_repository at hfind
    dsimp only at hfind
    rw [if_pos (by rw [ht, hk]; rfl)] at hfind
    rw [show cfg.reposList = rs from by simp [ConfigData.reposList, hrep]] at hfind
    exact List.mem_of_mem_filter (head?_mem hfind)
  have hany : rs.any (fun r => r.path == rd.path) = true :=
    List.any_eq_true.mpr ⟨rd, hmem, by simp⟩
  have hurc : update_repository_commit (some cfg) rd.path
      (some (o.head (pathJoin base p)))
      = .ok (true, some { cfg with repos := .list (setCommitFirst rs rd.path
          (some (o.head (pathJoin base p)))) }) := by
    unfold update_repository_commit
    dsimp only
    rw [ht, hk]
    simp only [Bool.and_self, Bool.not_true, Bool.false_eq_true, if_false]
    rw [hrep]
    dsimp only
    rw [hany]
    simp
  unfold command_update
  rw [if_pos hpne]
  dsimp only
  rw [hfind]
  dsimp only
  unfold updateStep
  rw [update_nofail_remote hof rd base p b st hp hb hg]
  dsimp only
  rw [if_neg (by simp [truthyS, hhead])]
  rw [hurc]
  dsimp only
  rw [hp]
  rfl

/-- Witness for `update_remote_tracks_branch` at a concrete manifest,
descriptor and tracked working copy. -/
theorem update_remote_tracks_branch_witness :
    command_update oAllOk ("/b") (some ("p")) true false true
      ⟨some ⟨.list [mkRepo ("u") ("p") (some ("dev")) (some ("c0")) none], false⟩,
        ⟨[("/b/p")], [("/b/p")], []⟩, none, none⟩
      = .ok ⟨some ⟨.list (setCommitFirst [mkRepo ("u") ("p") (some ("dev")) (some ("c0")) none]
              (some ("p")) (some (oAllOk.head ("/b/p")))), false⟩,
            ⟨[("/b/p")], [("/b/p")],
              [.git (fetchCmdOf ("dev") 1) ("/b/p"),
               .git ["reset", "--quiet", "--hard", ("origin/dev")] ("/b/p"),
               .git ["clean", "-ffd"] ("/b/p"),
               .git ["rev-parse", "HEAD"] ("/b/p")]⟩,
            some ⟨.list (setCommitFirst [mkRepo ("u") ("p") (some ("dev")) (some ("c0")) none]
              (some ("p")) (some (oAllOk.head ("/b/p")))), false⟩,
            none⟩ := by
  have h := update_remote_tracks_branch oAllOk ("/b") ("p") ("dev")
    ⟨.list [mkRepo ("u") ("p") (some ("dev")) (some ("c0")) none], false⟩
    [mkRepo ("u") ("p") (some ("dev")) (some ("c0")) none]
    (mkRepo ("u") ("p") (some ("dev")) (some ("c0")) none)
    ⟨[("/b/p")], [("/b/p")], []⟩
    (fun _ _ => rfl) rfl (by decide) rfl rfl (by decide) (by decide) (by decide)
  exact h.trans (by decide)

/-! ## C4 -/

/-- Interpolation leaves a placeholder-free character sequence
untouched. -/
theorem resolveCharsF_eq_self (env : String → Option String) :
    ∀ (fuel : Nat) (l : List Char), l.length ≤ fuel → hasPH l = false →
      resolveCharsF env fuel l = l := by
  intro fuel
  induction fuel with
  | zero =>
    intro l hlen _
    cases l with
    | nil => rfl
    | cons a t => simp at hlen
  | succ n ih =>
    intro l hlen hph
    match l with
    | [] => rfl
    | [c] => rfl
    | c1 :: c2 :: rest2 =>
      simp only [hasPH] at hph
      simp only [resolveCharsF]
      by_cases hb : c1 = '$' ∧ c2 = '{'
      · rw [if_pos hb] at hph ⊢
        by_cases hm : rest2.takeWhile isWordChar ≠ []
            ∧ (rest2.dropWhile isWordChar).head? = some '}'
        · rw [if_pos hm] at hph
          exact absurd hph (by simp)
        · rw [if_neg hm] at hph ⊢
          have hlen2 : rest2.length ≤ n := by
            simp only [List.length_cons] at hlen
            omega
          rw [ih rest2 hlen2 hph]
      · rw [if_neg hb] at hph ⊢
        have hlen2 : (c2 :: rest2).length ≤ n := by
          simp only [List.length_cons] at hlen ⊢
          omega
        rw [ih (c2 :: rest2) hlen2 hph]

/-- Interpolation leaves a placeholder-free optional string value
untouched. -/
theorem optMap_resolve_eq_self (env : String → Option String) (x : Option String)
    (h : optAll (fun s => !strHasPH s) x = true) : x.map (resolveStr env) = x := by
  cases x with
  | none => rfl
  | some s =>
    simp only [optAll, Bool.not_eq_true', strHasPH] at h
    simp only [Option.map_some']
    congr 1
    show String.mk (resolveCharsF env s.data.length s.data) = s
    rw [resolveCharsF_eq_self env s.data.length s.data (Nat.le_refl _) h]

/-- Interpolation is the identity on a placeholder-free descriptor. -/
theorem resolveRepo_eq_self (env : String → Option String) (r : RepoData)
    (h : r.noPH = true) : resolveRepo env r = r := by
  simp only [RepoData.noPH, Bool.and_eq_true] at h
  unfold resolveRepo
  rw [optMap_resolve_eq_self env r.url h.1.1.1, optMap_resolve_eq_self env r.path h.1.1.2,
    optMap_resolve_eq_self env r.branch h.1.2, optMap_resolve_eq_self env r.commit h.2]

/-- C4: saving a manifest and reloading it (which re-runs
environment-variable interpolation on the parsed data) yields a
descriptor sequence equal in content and order to the original, for
every manifest whose descriptor string values contain no `${NAME}`
placeholder. -/
theorem save_load_round_trip (env : String → Option String) (c : ConfigData)
    (h : (get_repositories (some c)).all RepoData.noPH = true) :
    get_repositories (some (save_then_load env c)) = get_repositories (some c) := by
  cases hr : c.repos with
  | absent =>
    simp [save_then_load, resolveCfg, hr, get_repositories, ConfigData.truthy,
      ConfigData.hasKey, ConfigData.reposList]
  | null =>
    simp [save_then_load, resolveCfg, hr, get_repositories, ConfigData.truthy,
      ConfigData.hasKey, ConfigData.reposList]
  | list rs =>
    have hget : get_repositories (some c) = rs := get_repositories_of_list hr
    have hget2 : get_repositories (some (save_then_load env c))
        = rs.map (resolveRepo env) := by
      simp [save_then_load, resolveCfg, hr, get_repositories, ConfigData.truthy,
        ConfigData.hasKey, ConfigData.reposList]
    rw [hget, hget2]
    rw [hget] at h
    have hall := List.all_eq_true.mp h
    clear h hget hget2 hr
    induction rs with
    | nil => rfl
    | cons a t ih =>
      rw [List.map_cons]
      rw [resolveRepo_eq_self env a (hall a (List.mem_cons_self a t))]
      rw [ih (fun r hr => hall r (List.mem_cons_of_mem a hr))]

/-- Witness for `save_load_round_trip`: a concrete two-entry manifest
with plain string values round-trips unchanged. -/
theorem save_load_round_trip_witness :
    get_repositories (some (save_then_load (fun _ => none)
        ⟨.list [mkRepo ("https://example/foo.git") ("libs/foo") (some ("main"))
            (some ("abc1234")) (some 1),
          mkRepo ("u2") ("libs/bar") none none none], true⟩))
      = get_repositories (some (⟨.list [mkRepo ("https://example/foo.git") ("libs/foo")
            (some ("main")) (some ("abc1234")) (some 1),
          mkRepo ("u2") ("libs/bar") none none none], true⟩ : ConfigData)) :=
  save_load_round_trip (fun _ => none)
    ⟨.list [mkRepo ("https://example/foo.git") ("libs/foo") (some ("main"))
        (some ("abc1234")) (some 1),
      mkRepo ("u2") ("libs/bar") none none none], true⟩ (by decide)

end Asoo
